import Mathlib

/-!
Verification of the project-dashboard classification and query subsystem.

The development shallowly embeds the TypeScript source:

* `computeStatus`, the in-process status classifier (src/server/lib/helpers.ts),
* `statusCondition`, `techStackCondition`, `buildOrderBy` and the sidebar
  aggregate queries, the store-side filter engine (src/server/lib/filters.ts),
* `detectIsFork`, `extractMetadata`, `extractProjectData`, the scanner probes
  (src/scanner/project-data.ts),
* `projectMetadataSchema`, the zod metadata validator (src/server/db/validators.ts),
* the upsert of `persistProjects` (src/scanner/scanner.ts).

Modelling conventions:

* Timestamps are integers counting milliseconds since the epoch.  The stored
  `last_commit_date` column is a canonical UTC ISO string in the source; its
  calendar-date part (what SQLite's `date(substr(ts,1,10))` reads) is therefore
  the floor of the millisecond value over 86,400,000.
* SQLite expressions that can be NULL are modelled as `Option Bool` with
  SQL three-valued `AND`/`OR`/`NOT`; a WHERE clause keeps a row exactly when
  the expression evaluates to `some true`.
* SQLite `LIKE` folds ASCII case only, and JavaScript `toLowerCase` is
  modelled by ASCII folding as well (all string constants involved are ASCII).
* JavaScript regular expressions used by the source are fixed keyword
  alternations with `\b` word boundaries; they are embedded as explicit
  word-boundary scanners over character lists (`\w` is `[A-Za-z0-9_]`).
-/

namespace ProjectDashboard

/-! ### String primitives shared by both realizations -/

/-- ASCII lowercase folding of a string (`Char.toLower` maps `A`–`Z` only,
matching SQLite's `LIKE` folding; all constants compared in this development
are ASCII). -/
def lowerStr (s : String) : String := String.mk (s.data.map Char.toLower)

/-- JavaScript regex word characters, `[A-Za-z0-9_]`. -/
def isWordChar (c : Char) : Bool := c.isAlphanum || c == '_'

/-- Does `pat` occur as a contiguous substring of `s` (both as char lists)? -/
def occursIn (pat : List Char) : List Char → Bool
  | [] => List.isPrefixOf pat []
  | c :: rest => List.isPrefixOf pat (c :: rest) || occursIn pat rest

/-- JavaScript `String.prototype.includes` (case-sensitive substring). -/
def jsIncludes (s sub : String) : Bool := occursIn sub.data s.data

/-- SQLite `s LIKE '%pat%'`: ASCII-case-insensitive substring containment. -/
def sqlLikeInfix (s pat : String) : Bool :=
  occursIn (lowerStr pat).data (lowerStr s).data

/-- A `\b` word boundary holds before the current position when there is no
previous character or the previous character is not a word character. -/
def boundaryOk (prev : Option Char) : Bool :=
  match prev with
  | none => true
  | some c => !isWordChar c

/-- One keyword alternative of a `\b(…)\b` pattern matches at the current
position: boundary before, the keyword is a literal prefix, boundary after. -/
def wbHere (pat : List Char) (prev : Option Char) (s : List Char) : Bool :=
  boundaryOk prev && List.isPrefixOf pat s &&
    (match s.drop pat.length with
     | [] => true
     | c :: _ => !isWordChar c)

/-- Scan a string for any word-boundary-delimited occurrence of one of the
keyword alternatives (the semantics of `/\b(k1|k2|…)\b/` on the char list). -/
def wbScan (pats : List (List Char)) : Option Char → List Char → Bool
  | prev, [] => pats.any (fun p => wbHere p prev [])
  | prev, c :: rest =>
      pats.any (fun p => wbHere p prev (c :: rest)) || wbScan pats (some c) rest

/-- The keyword alternatives of `WIP_PATTERN = /\b(wip|todo|fixme|in progress)\b/i`
(src/server/lib/helpers.ts line 5). -/
def wipKeywords : List (List Char) :=
  ["wip".data, "todo".data, "fixme".data, "in progress".data]

/-- `WIP_PATTERN.test s` for an already-lowercased `s` (the `/i` flag is
absorbed by lowering the subject first, as `computeStatus` does). -/
def wipPatternTest (s : String) : Bool := wbScan wipKeywords none s.data

/-! ### Data model: the persisted repository record -/

/-- The persisted `metadata` JSON column, one optional field per key the
embedded code touches; an absent key reads as SQL NULL.  The scan pipeline
writes the camelCase keys of schema.ts's `ProjectMetadata` — `currentState`,
`deploymentStatus`, `techStack` — while `techStackCondition`, `typeCondition`
and the commit-count sort read the snake_case keys `tech_stack`,
`inferred_type`, `commit_count_8m`.  Both key families are distinct fields
here, since a JSON object can carry either; identifying them would erase the
read/write key mismatch. -/
structure MetadataJson where
  currentState : Option String := none
  deploymentStatus : Option String := none
  techStack : Option (List String) := none
  tech_stack : Option (List String) := none
  inferred_type : Option String := none
  commit_count_8m : Option Int := none
deriving DecidableEq

/-- A row of the `projects` table (schema.ts), with `lastCommitDate` modelled
as the millisecond timestamp of the stored canonical UTC ISO string. -/
structure ProjectRow where
  id : Int
  path : String
  name : String
  lastCommitDate : Int
  lastCommitMessage : Option String
  metadata : Option MetadataJson
  isFork : Bool
  pinned : Bool
  lastViewedAt : Option Int
  createdAt : Int
  updatedAt : Int
deriving DecidableEq

/-- Milliseconds per day, the divisor used by `computeStatus`. -/
def msPerDay : Int := 86400000

/-- The calendar day (days since epoch) of a millisecond timestamp: what
SQLite's `date(substr(ts,1,10))` denotes for a canonical UTC ISO string. -/
def dayOf (ms : Int) : Int := Int.ediv ms msPerDay

/-! ### The in-process classifier `computeStatus` (helpers.ts lines 23–53) -/

/-- Status enum of helpers.ts. -/
inductive Status where
  | active | recent | paused | wip | deployed | unknown
deriving DecidableEq

/-- `metadata?.currentState?.toLowerCase().includes("work in progress")`. -/
def currentStateHasWip (m : Option MetadataJson) : Bool :=
  match m with
  | none => false
  | some md =>
    match md.currentState with
    | none => false
    | some cs => jsIncludes (lowerStr cs) "work in progress"

/-- `metadata?.deploymentStatus?.toLowerCase().includes("likely deployed")`. -/
def deploymentStatusLikely (m : Option MetadataJson) : Bool :=
  match m with
  | none => false
  | some md =>
    match md.deploymentStatus with
    | none => false
    | some ds => jsIncludes (lowerStr ds) "likely deployed"

/-- Port of `computeStatus` (helpers.ts lines 23–53): WIP keywords in the
last-commit message or current state first, then deployment status, then the
commit-recency fallback.  `now` is the wall clock read inside the function. -/
def computeStatus (now : Int) (project : ProjectRow) : Status :=
  let lastCommitMsg := lowerStr (project.lastCommitMessage.getD "")
  if wipPatternTest lastCommitMsg || currentStateHasWip project.metadata then
    Status.wip
  else if deploymentStatusLikely project.metadata then
    Status.deployed
  else
    let diffMs := now - project.lastCommitDate
    if diffMs < 7 * msPerDay then Status.active
    else if diffMs < 30 * msPerDay then Status.recent
    else Status.paused

/-! ### SQL three-valued logic and the store-side predicates (filters.ts) -/

/-- SQL `OR` on nullable booleans. -/
def sqlOr : Option Bool → Option Bool → Option Bool
  | some true, _ => some true
  | _, some true => some true
  | some false, some false => some false
  | _, _ => none

/-- SQL `AND` on nullable booleans. -/
def sqlAnd : Option Bool → Option Bool → Option Bool
  | some false, _ => some false
  | _, some false => some false
  | some true, some true => some true
  | _, _ => none

/-- SQL `NOT` on nullable booleans. -/
def sqlNot : Option Bool → Option Bool
  | some b => some (!b)
  | none => none

/-- `expr LIKE '%pat%'` on a nullable text operand (NULL propagates). -/
def likeExpr (s : Option String) (pat : String) : Option Bool :=
  s.map (fun v => sqlLikeInfix v pat)

/-- `COALESCE(expr, '') LIKE '%pat%'` (never NULL). -/
def coalesceLike (s : Option String) (pat : String) : Option Bool :=
  some (sqlLikeInfix (s.getD "") pat)

/-- `json_extract(metadata, '$.currentState')`: NULL when the column or the
key is absent. -/
def jsonCurrentState (p : ProjectRow) : Option String :=
  p.metadata.bind (fun m => m.currentState)

/-- `json_extract(metadata, '$.deploymentStatus')`. -/
def jsonDeploymentStatus (p : ProjectRow) : Option String :=
  p.metadata.bind (fun m => m.deploymentStatus)

/-- `json_extract(metadata, '$.tech_stack')` as a JSON array of strings:
NULL when the column or this snake_case key is absent.  Scanner-persisted
blobs store the tag list under the camelCase key `techStack` and never carry
`tech_stack`. -/
def jsonTechStack (p : ProjectRow) : Option (List String) :=
  p.metadata.bind (fun m => m.tech_stack)

/-- The non-coalesced WIP disjunction shared by the `recent`, `paused` and
`wip` branches of `statusCondition` (filters.ts lines 74–78 etc.):
`(msg LIKE '%WIP%' OR msg LIKE '%TODO%' OR msg LIKE '%FIXME%' OR
msg LIKE '%in progress%') OR currentState LIKE '%work in progress%'`. -/
def wipLikeExpr (p : ProjectRow) : Option Bool :=
  sqlOr
    (sqlOr (sqlOr (likeExpr p.lastCommitMessage "WIP")
                  (likeExpr p.lastCommitMessage "TODO"))
           (sqlOr (likeExpr p.lastCommitMessage "FIXME")
                  (likeExpr p.lastCommitMessage "in progress")))
    (likeExpr (jsonCurrentState p) "work in progress")

/-- The coalesced WIP disjunction of the `active` branch (filters.ts
lines 60–64), where every operand is wrapped in `COALESCE(…, '')`. -/
def wipLikeCoalescedExpr (p : ProjectRow) : Option Bool :=
  sqlOr
    (sqlOr (sqlOr (coalesceLike p.lastCommitMessage "WIP")
                  (coalesceLike p.lastCommitMessage "TODO"))
           (sqlOr (coalesceLike p.lastCommitMessage "FIXME")
                  (coalesceLike p.lastCommitMessage "in progress")))
    (coalesceLike (jsonCurrentState p) "work in progress")

/-- Port of `statusCondition` (filters.ts lines 54–114): given the filter's
status string it returns the pushed-down predicate, or `none` (`undefined`)
for unrecognized statuses.  The predicate evaluates a row at a given `now` to
a nullable SQL boolean. -/
def statusCondition (status : String) :
    Option (Int → ProjectRow → Option Bool) :=
  if status = "active" ∨ status = "active_this_week" then some (fun now p =>
    sqlAnd
      (sqlAnd (some (decide (dayOf now - 7 ≤ dayOf p.lastCommitDate)))
              (sqlNot (wipLikeCoalescedExpr p)))
      (sqlNot (coalesceLike (jsonDeploymentStatus p) "likely deployed")))
  else if status = "recent" then some (fun now p =>
    sqlAnd
      (sqlAnd (some (decide (dayOf now - 30 ≤ dayOf p.lastCommitDate) &&
                     decide (dayOf p.lastCommitDate ≤ dayOf now - 7)))
              (sqlNot (wipLikeExpr p)))
      (sqlNot (likeExpr (jsonDeploymentStatus p) "likely deployed")))
  else if status = "paused" then some (fun now p =>
    sqlAnd
      (sqlAnd (some (decide (dayOf p.lastCommitDate < dayOf now - 30)))
              (sqlNot (wipLikeExpr p)))
      (sqlNot (likeExpr (jsonDeploymentStatus p) "likely deployed")))
  else if status = "stalled" then some (fun now p =>
    some (decide (dayOf now - 60 ≤ dayOf p.lastCommitDate) &&
          decide (dayOf p.lastCommitDate ≤ dayOf now - 14)))
  else if status = "wip" then some (fun _ p => wipLikeExpr p)
  else if status = "deployed" then some (fun _ p =>
    likeExpr (jsonDeploymentStatus p) "likely deployed")
  else none

/-- A WHERE clause keeps a row exactly when the condition is `some true`. -/
def condHolds (c : Option Bool) : Bool := c == some true

/-- The store selects a row under a status filter: the pushed predicate
evaluates to SQL TRUE (an unrecognized status pushes no predicate and would
select everything; the claims only quantify over the recognized ones). -/
def statusSelects (status : String) (now : Int) (p : ProjectRow) : Bool :=
  match statusCondition status with
  | none => true
  | some cond => condHolds (cond now p)

/-! ### Tech-stack filter (filters.ts lines 117–122) -/

/-- Port of `techStackCondition`: `EXISTS (SELECT 1 FROM
json_each(json_extract(metadata, '$.tech_stack')) WHERE value = tech)`.
`json_each` over SQL NULL yields no rows, and `=` compares text exactly
(case-sensitively), so the condition is exact membership in the array. -/
def techStackCondition (tech : String) (p : ProjectRow) : Bool :=
  match jsonTechStack p with
  | none => false
  | some tags => tags.any (fun v => v == tech)

/-- The JSON text serialization of a tag array, used only to express that the
store predicate is not substring containment over this serialized form. -/
def serializeTags (tags : List String) : String :=
  "[" ++ String.intercalate "," (tags.map (fun t => "\"" ++ t ++ "\"")) ++ "]"

/-! ### Sort terms (filters.ts lines 141–153 and 287–298) -/

/-- A drizzle order-by SQL fragment: a column or expression, with zero or
more direction keywords appended.  Drizzle's `asc`/`desc` wrap whatever
fragment they receive in `sql`… asc`` / `sql`… desc``
verbatim, so they can stack. -/
inductive OrderBySql where
  | expr (sqlText : String) : OrderBySql
  | directed (inner : OrderBySql) (dir : String) : OrderBySql
deriving DecidableEq

/-- drizzle `asc(x)`. -/
def drizzleAsc (t : OrderBySql) : OrderBySql := OrderBySql.directed t "asc"

/-- drizzle `desc(x)`. -/
def drizzleDesc (t : OrderBySql) : OrderBySql := OrderBySql.directed t "desc"

/-- Number of direction keywords applied to a fragment. -/
def dirCount : OrderBySql → Nat
  | .expr _ => 0
  | .directed t _ => dirCount t + 1

/-- A fragment is a well-formed SQLite ordering term only when at most one
direction keyword is applied: `ORDER BY x asc asc` is rejected by SQLite's
grammar (ordering-term ::= expr [COLLATE name] [ASC|DESC] …). -/
def validOrderingTerm (t : OrderBySql) : Bool := decide (dirCount t ≤ 1)

/-- Port of `buildOrderBy` (filters.ts lines 141–153): direction defaults to
`desc` unless it is exactly `"asc"`, for every sort key. -/
def buildOrderBy (sort : Option String) (direction : Option String) :
    OrderBySql :=
  let dir := if direction = some "asc" then drizzleAsc else drizzleDesc
  if sort = some "name" then dir (OrderBySql.expr "projects.name")
  else if sort = some "commit_count" then
    dir (OrderBySql.expr
      "CAST(COALESCE(json_extract(projects.metadata, $.commit_count_8m), 0) AS INTEGER)")
  else dir (OrderBySql.expr "projects.last_commit_date")

/-- The ordering fragment issued by `findAdjacentProjects` (filters.ts
lines 292–298): `orderBy(dir(buildOrderBy(sort, direction)))` applies the
direction keyword a second time around `buildOrderBy`'s already-directed
fragment. -/
def findAdjacentOrderBy (sort : String) (direction : String) : OrderBySql :=
  let dir := if direction = "asc" then drizzleAsc else drizzleDesc
  dir (buildOrderBy (some sort) (some direction))

/-! ### Sidebar aggregates (filters.ts lines 215–259) -/

/-- The WHERE clause of the sidebar active-this-week count (filters.ts
line 242): the recency band alone, with no WIP or deployed exclusion. -/
def sidebarActiveCond (now : Int) (p : ProjectRow) : Bool :=
  decide (dayOf now - 7 ≤ dayOf p.lastCommitDate)

/-- The WHERE clause of the sidebar stalled count (filters.ts line 249):
last commit date between 60 and 14 days ago. -/
def sidebarStalledCond (now : Int) (p : ProjectRow) : Bool :=
  decide (dayOf now - 60 ≤ dayOf p.lastCommitDate) &&
  decide (dayOf p.lastCommitDate ≤ dayOf now - 14)

/-- `SELECT count(*) FROM projects WHERE cond` over the table contents. -/
def sqlCountWhere (cond : ProjectRow → Bool) (table : List ProjectRow) : Nat :=
  (table.filter cond).length

/-- The sidebar's active-this-week count. -/
def activeThisWeekCount (now : Int) (table : List ProjectRow) : Nat :=
  sqlCountWhere (sidebarActiveCond now) table

/-- The sidebar's stalled count. -/
def stalledCount (now : Int) (table : List ProjectRow) : Nat :=
  sqlCountWhere (sidebarStalledCond now) table

/-- The number of rows the main listing selects under a status filter. -/
def statusFilterCount (status : String) (now : Int)
    (table : List ProjectRow) : Nat :=
  sqlCountWhere (fun p => statusSelects status now p) table

/-! ### Fork classifier (project-data.ts lines 13 and 64–73) -/

/-- `GITHUB_REMOTE_RE = /github\.com[:\/]([^\/]+)\//` applied at one
position: the literal `github.com`, one of `:` or `/`, then a non-empty
run of non-`/` characters captured up to a mandatory `/`. -/
def githubOwnerAt : List Char → Option (List Char)
  | 'g' :: 'i' :: 't' :: 'h' :: 'u' :: 'b' :: '.' :: 'c' :: 'o' :: 'm' :: sep :: rest =>
      if sep = ':' ∨ sep = '/' then
        let owner := rest.takeWhile (fun c => c != '/')
        let remainder := rest.dropWhile (fun c => c != '/')
        if owner ≠ [] ∧ remainder ≠ [] then some owner else none
      else none
  | _ => none

/-- Leftmost match of `GITHUB_REMOTE_RE` over the whole string: the captured
path-owner segment of a recognized GitHub remote, or `none`. -/
def githubOwnerSearch : List Char → Option (List Char)
  | [] => none
  | c :: rest =>
      match githubOwnerAt (c :: rest) with
      | some owner => some owner
      | none => githubOwnerSearch rest

/-- The path-owner segment of a remote URL per `GITHUB_REMOTE_RE`. -/
def githubOwnerOf (remoteUrl : String) : Option String :=
  (githubOwnerSearch remoteUrl.data).map String.mk

/-- Port of `detectIsFork` (project-data.ts lines 64–73).  JavaScript
truthiness makes both a missing and an empty remote or identity fall into
the `false` branch. -/
def detectIsFork (remoteUrl : Option String) (githubUser : Option String) :
    Bool :=
  match remoteUrl, githubUser with
  | some r, some u =>
      if r = "" ∨ u = "" then false
      else
        match githubOwnerOf r with
        | none => false
        | some owner => lowerStr owner != lowerStr u
  | _, _ => false

/-- The host of a git remote in the two canonical forms (the spec's notion of
"the remote host"): the authority of a `scheme://host/…` URL, or the host of
an scp-like `user@host:path` remote; `none` otherwise. -/
def afterSub (sub : List Char) : List Char → Option (List Char)
  | [] => if sub.isPrefixOf ([] : List Char) then some [] else none
  | c :: rest =>
      if sub.isPrefixOf (c :: rest) then some ((c :: rest).drop sub.length)
      else afterSub sub rest

/-- See `afterSub`: extracts the host component of a remote URL. -/
def remoteHost (r : String) : Option String :=
  match afterSub "://".data r.data with
  | some rest => some (String.mk (rest.takeWhile (fun c => c != '/' && c != ':')))
  | none =>
    match afterSub "@".data r.data with
    | some rest => some (String.mk (rest.takeWhile (fun c => c != ':' && c != '/')))
    | none => none

/-! ### Scanner extraction (project-data.ts lines 489–682)

The probes walk the file system and invoke git; their internals are
irrelevant to the error-handling contract, so a repository is modelled by
the outcome each probe would produce: `Except.error` when the probe throws,
`Except.ok` with its value otherwise.  `extractGitData` can additionally
find an empty commit log (`log.latest` null), hence `Except String (Option
GitData)`. -/

/-- The data `extractGitData` returns for a repository with at least one
commit (project-data.ts lines 493–511). -/
structure GitData where
  lastCommitDate : String
  lastCommitMessage : String
  lastCommitAuthor : String
  recentCommits : List (String × String)
  contributors : List String
deriving DecidableEq

/-- Probe outcomes of one repository. -/
structure RepoFs where
  hasGitDir : Bool
  gitLog : Except String (Option GitData)
  commitCountProbe : Except String Int
  remoteProbe : Except String (Option String)
  referenceFilesProbe : Except String (List (String × List String))
  descriptionProbe : Except String String
  techStackProbe : Except String (List String)
  currentStateProbe : Except String String
  deploymentStatusProbe : Except String String
  nestedReposProbe : Except String (List String)
  plansCountProbe : Except String Int
  aiDocsCountProbe : Except String Int
  claudeDescriptionProbe : Except String (Option String)

/-- The in-process metadata record built by `extractMetadata`
(project-data.ts lines 589–607). -/
structure ScannedMetadata where
  lastCommitAuthor : String
  recentCommits : List (String × String)
  commitCount8m : Int
  contributors : List String
  gitRemote : Option String
  referenceFiles : Option (List (String × List String))
  description : String
  currentState : String
  techStack : List String
  inferredType : String
  deploymentStatus : Option String
  nestedRepos : Option (List String)
  plansCount : Int
  aiDocsCount : Int
  claudeDescription : Option String
  errors : Option (List String)
deriving DecidableEq

/-- The scanned-project record `extractProjectData` returns
(project-data.ts lines 674–681). -/
structure ScannedProject where
  path : String
  name : String
  lastCommitDate : String
  lastCommitMessage : String
  isFork : Bool
  metadata : ScannedMetadata
deriving DecidableEq

/-- `errorMsg(prefix, e)` (project-data.ts lines 489–491). -/
def errorMsg (pre : String) (e : String) : String := pre ++ ": " ++ e

/-- One `try { x = await probe() } catch (e) { errors.push(errorMsg(…, e)) }`
block: the probe's value, or its default plus an appended error message. -/
def probeD {α : Type} (outcome : Except String α) (default : α)
    (pre : String) (errs : List String) : α × List String :=
  match outcome with
  | Except.ok v => (v, errs)
  | Except.error e => (default, errs ++ [errorMsg pre e])

/-- `TYPE_PRIORITY` (project-data.ts lines 246–257). -/
def TYPE_PRIORITY : List (String × String) :=
  [("rails", "rails-app"), ("rails-app", "rails-app"), ("ruby", "ruby-app"),
   ("rust", "rust-app"), ("go", "go-app"), ("elixir", "elixir-app"),
   ("java", "java-app"), ("python", "python-app"), ("node", "node-app"),
   ("c-cpp", "c-cpp-app")]

/-- `inferProjectType` (project-data.ts lines 259–266): first-match-wins
over the priority table, default `"unknown"`. -/
def inferProjectType (techStack : List String) : String :=
  (TYPE_PRIORITY.find? (fun kv => techStack.contains kv.1)).map Prod.snd
    |>.getD "unknown"

/-- Port of `extractMetadata` (project-data.ts lines 513–608): every probe is
individually guarded; a failing probe appends `errorMsg` to the running error
list and its output falls back to the declared default. -/
def extractMetadata (fs : RepoFs) (name : String) (gitData : GitData)
    (gitRemote : Option String) (errors0 : List String) : ScannedMetadata :=
  let r1 := probeD fs.referenceFilesProbe [] "Reference files error" errors0
  let r2 := probeD fs.descriptionProbe name "Description error" r1.2
  let r3 := probeD fs.techStackProbe [] "Tech stack error" r2.2
  let inferredType := inferProjectType r3.1
  let r4 := probeD fs.currentStateProbe "unknown" "State error" r3.2
  let r5o := probeD (fs.deploymentStatusProbe.map some) none
    "Deployment error" r4.2
  let r6 := probeD fs.nestedReposProbe [] "Nested repos error" r5o.2
  let r7 := probeD fs.plansCountProbe 0 "Plans count error" r6.2
  let r8 := probeD fs.aiDocsCountProbe 0 "AI docs count error" r7.2
  let r9 := probeD fs.claudeDescriptionProbe none
    "Claude description error" r8.2
  { lastCommitAuthor := gitData.lastCommitAuthor
    recentCommits := gitData.recentCommits
    commitCount8m := 0
    contributors := gitData.contributors
    gitRemote := gitRemote
    referenceFiles := if r1.1 = [] then none else some r1.1
    description := r2.1
    currentState := r4.1
    techStack := r3.1
    inferredType := inferredType
    deploymentStatus := r5o.1
    nestedRepos := if r6.1 = [] then none else some r6.1
    plansCount := r7.1
    aiDocsCount := r8.1
    claudeDescription := r9.1
    errors := if r9.2 = [] then none else some r9.2 }

/-- Port of `extractProjectData` (project-data.ts lines 610–682). Returns
`none` when there is no `.git` directory or the git-history probe yields no
latest commit (an empty log, or `git log` itself failing — the only probe
whose failure aborts extraction).  Every other probe failure is absorbed into
the record. -/
def extractProjectData (fs : RepoFs) (repoPath : String) (name : String)
    (githubUser : Option String) : Option ScannedProject :=
  if fs.hasGitDir = false then none
  else
    match fs.gitLog with
    | Except.error _ => none
    | Except.ok none => none
    | Except.ok (some gitData) =>
      let r1 := probeD fs.commitCountProbe 0 "Commit count error" []
      let r2 := probeD fs.remoteProbe none "Remote error" r1.2
      let isFork := detectIsFork r2.1 githubUser
      let metadata := extractMetadata fs name gitData r2.1 r2.2
      some
        { path := repoPath
          name := name
          lastCommitDate := gitData.lastCommitDate
          lastCommitMessage := gitData.lastCommitMessage
          isFork := isFork
          metadata := { metadata with commitCount8m := r1.1 } }

/-- The error list of a scanned record (`metadata.errors ?? []`). -/
def errorsOf (r : ScannedProject) : List String :=
  r.metadata.errors.getD []

/-! ### The zod metadata validator (validators.ts lines 16–45)

`projectMetadataSchema` is a `z.object(...).passthrough()`: unknown top-level
keys are accepted and kept.  Its two nested object schemas
(`recentCommits` items and `referenceFiles`) are plain `z.object`s, which in
zod's default mode accept but STRIP unknown keys while parsing.  JSON values
are modelled with integer numbers (no float is involved in the shape checks). -/

/-- A JSON value. -/
inductive Json where
  | str : String → Json
  | num : Int → Json
  | jsonBool : Bool → Json
  | null : Json
  | arr : List Json → Json
  | obj : List (String × Json) → Json

/-- `fields[key]` — the first binding of a key in a JSON object. -/
def jsonLookup (fields : List (String × Json)) (key : String) : Option Json :=
  (fields.find? (fun kv => kv.1 == key)).map Prod.snd

/-- Is the value a JSON string? -/
def isStr : Json → Bool
  | Json.str _ => true
  | _ => false

/-- Is the value a JSON number? -/
def isNum : Json → Bool
  | Json.num _ => true
  | _ => false

/-- `z.array(z.string())`. -/
def isStrArray : Json → Bool
  | Json.arr items => items.all isStr
  | _ => false

/-- One item of `recentCommits`: `z.object({ date: z.string(),
message: z.string() })` — both keys required strings. -/
def commitItemOk : Json → Bool
  | Json.obj fields =>
      ((jsonLookup fields "date").map isStr).getD false &&
      ((jsonLookup fields "message").map isStr).getD false
  | _ => false

/-- An optional field: absent, or present and well-shaped. -/
def optionalOk (fields : List (String × Json)) (key : String)
    (check : Json → Bool) : Bool :=
  match jsonLookup fields key with
  | none => true
  | some v => check v

/-- A required field: present and well-shaped. -/
def requiredOk (fields : List (String × Json)) (key : String)
    (check : Json → Bool) : Bool :=
  ((jsonLookup fields key).map check).getD false

/-- The keys of `referenceFilesSchema` (validators.ts lines 16–22), each an
optional string array. -/
def referenceFilesKeys : List String := ["root", "ai", "cursor", "tasks", "docs"]

/-- `referenceFilesSchema` shape check. -/
def referenceFilesOk : Json → Bool
  | Json.obj fields => referenceFilesKeys.all
      (fun k => optionalOk fields k isStrArray)
  | _ => false

/-- `z.string().nullable()`. -/
def strOrNull : Json → Bool
  | Json.str _ => true
  | Json.null => true
  | _ => false

/-- The top-level keys declared by `projectMetadataSchema`
(validators.ts lines 24–43). -/
def metadataKnownKeys : List String :=
  ["lastCommitAuthor", "recentCommits", "commitCount8m", "contributors",
   "gitRemote", "referenceFiles", "description", "currentState", "techStack",
   "inferredType", "deploymentStatus", "nestedRepos", "plansCount",
   "aiDocsCount", "claudeDescription", "errors"]

/-- The declared-field checks of `projectMetadataSchema`: required fields
must be present and well-shaped, optional fields well-shaped when present.
Unknown keys are unconstrained (`.passthrough()`). -/
def metadataShapeOk (fields : List (String × Json)) : Bool :=
  requiredOk fields "lastCommitAuthor" isStr &&
  requiredOk fields "recentCommits" (fun v =>
    match v with
    | Json.arr items => items.all commitItemOk
    | _ => false) &&
  requiredOk fields "commitCount8m" isNum &&
  requiredOk fields "contributors" isStrArray &&
  optionalOk fields "gitRemote" isStr &&
  optionalOk fields "referenceFiles" referenceFilesOk &&
  optionalOk fields "description" isStr &&
  optionalOk fields "currentState" isStr &&
  requiredOk fields "techStack" isStrArray &&
  requiredOk fields "inferredType" isStr &&
  optionalOk fields "deploymentStatus" isStr &&
  optionalOk fields "nestedRepos" isStrArray &&
  optionalOk fields "plansCount" isNum &&
  optionalOk fields "aiDocsCount" isNum &&
  optionalOk fields "claudeDescription" strOrNull &&
  optionalOk fields "errors" isStrArray

/-- How zod rebuilds one `recentCommits` item while parsing: only the
declared keys survive, in schema order. -/
def rebuildCommitItem (v : Json) : Json :=
  match v with
  | Json.obj fields =>
      Json.obj
        (((jsonLookup fields "date").map
            (fun d => [("date", d)])).getD [] ++
         ((jsonLookup fields "message").map
            (fun m => [("message", m)])).getD [])
  | other => other

/-- How zod rebuilds the `referenceFiles` value: only the declared keys
survive, in schema order. -/
def rebuildReferenceFiles (v : Json) : Json :=
  match v with
  | Json.obj fields =>
      Json.obj (referenceFilesKeys.filterMap
        (fun k => (jsonLookup fields k).map (fun w => (k, w))))
  | other => other

/-- The value a declared key receives in the parse output; keys with no
nested object schema pass through unchanged. -/
def rebuildKnown (key : String) (v : Json) : Json :=
  if key = "recentCommits" then
    match v with
    | Json.arr items => Json.arr (items.map rebuildCommitItem)
    | other => other
  else if key = "referenceFiles" then rebuildReferenceFiles v
  else v

/-- `projectMetadataSchema.parse` on a JSON value: fails unless the value is
an object whose declared fields are well-shaped; on success returns the
object with unknown keys kept verbatim (passthrough) and the two
nested-object fields rebuilt from their declared keys. -/
def parseProjectMetadata (j : Json) : Option Json :=
  match j with
  | Json.obj fields =>
      if metadataShapeOk fields then
        some (Json.obj (fields.map (fun kv =>
          if metadataKnownKeys.contains kv.1 then (kv.1, rebuildKnown kv.1 kv.2)
          else kv)))
      else none
  | _ => none

/-! ### The scan upsert (scanner.ts lines 92–116, schema.ts lines 49–74) -/

/-- The column values `persistProjects` builds from a scanned project
(scanner.ts lines 93–100). -/
structure UpsertValues where
  path : String
  name : String
  lastCommitDate : Int
  lastCommitMessage : Option String
  metadata : Option MetadataJson
  isFork : Bool
deriving DecidableEq

/-- `insert(projects).values(values).onConflictDoUpdate({ target: path,
set: { name, lastCommitDate, lastCommitMessage, metadata, isFork,
updatedAt } })`: when a row with the same path exists, exactly the six
columns of the `set` clause change on that row; otherwise a fresh row is
inserted with the schema defaults (`pinned` false, `lastViewedAt` NULL,
`createdAt`/`updatedAt` now, autoincremented id). -/
def upsertProject (table : List ProjectRow) (v : UpsertValues)
    (freshId : Int) (now : Int) : List ProjectRow :=
  if table.any (fun r => r.path == v.path) then
    table.map (fun r =>
      if r.path == v.path then
        { r with
          name := v.name
          lastCommitDate := v.lastCommitDate
          lastCommitMessage := v.lastCommitMessage
          metadata := v.metadata
          updatedAt := now
          isFork := v.isFork }
      else r)
  else
    table ++ [{ id := freshId
                path := v.path
                name := v.name
                lastCommitDate := v.lastCommitDate
                lastCommitMessage := v.lastCommitMessage
                metadata := v.metadata
                isFork := v.isFork
                pinned := false
                lastViewedAt := none
                createdAt := now
                updatedAt := now }]

/-! ### Concrete records used as counterexamples and witnesses -/

/-- A throwaway base row. -/
def baseRow : ProjectRow :=
  { id := 1, path := "/repos/base", name := "base", lastCommitDate := 0,
    lastCommitMessage := none, metadata := none, isFork := false,
    pinned := false, lastViewedAt := none, createdAt := 0, updatedAt := 0 }

/-- A row whose last-commit message contains `wip` only inside the word
`wipe`: no word-boundary match, but a `LIKE '%WIP%'` match. -/
def pWipe : ProjectRow :=
  { baseRow with path := "/repos/wipe", name := "wipe",
                 lastCommitMessage := some "wipe the slate" }

/-- The spec's scenario row: last commit message `"WIP: refactor"`. -/
def pWipRefactor : ProjectRow :=
  { baseRow with path := "/repos/refactor", name := "refactor",
                 lastCommitMessage := some "WIP: refactor" }

/-- A second WIP-messaged row, committed now, for the sidebar counterexample. -/
def pWipFresh : ProjectRow :=
  { baseRow with path := "/repos/fresh", name := "fresh",
                 lastCommitMessage := some "WIP commit" }

/-- A row tagged exactly `["go"]`. -/
def pGoTagged : ProjectRow :=
  { baseRow with path := "/repos/go", name := "go",
                 metadata := some { tech_stack := some ["go"] } }

/-- A row tagged exactly `["django"]`. -/
def pDjangoTagged : ProjectRow :=
  { baseRow with path := "/repos/dj", name := "dj",
                 metadata := some { tech_stack := some ["django"] } }

/-- A row whose metadata marks it likely deployed. -/
def pDeployed : ProjectRow :=
  { baseRow with path := "/repos/dep", name := "dep",
                 metadata :=
                   some { deploymentStatus := some "likely deployed (has Dockerfile)" } }

/-- An scp-like remote whose host is not github.com but whose path contains
a `github.com/owner/` segment, so `GITHUB_REMOTE_RE` still matches. -/
def evilRemote : String := "git@evil.com:github.com/alice/x"

/-- Git data of the witness repository. -/
def gdInit : GitData :=
  { lastCommitDate := "2026-10-01T00:00:00Z"
    lastCommitMessage := "init"
    lastCommitAuthor := "a"
    recentCommits := [("2026-10-01T00:00:00Z", "init")]
    contributors := ["a"] }

/-- Probe outcomes in which every fault-tolerant probe fails. -/
def allFailFs : RepoFs :=
  { hasGitDir := true
    gitLog := Except.ok (some gdInit)
    commitCountProbe := Except.error "count boom"
    remoteProbe := Except.error "remote boom"
    referenceFilesProbe := Except.error "ref boom"
    descriptionProbe := Except.error "desc boom"
    techStackProbe := Except.error "tech boom"
    currentStateProbe := Except.error "state boom"
    deploymentStatusProbe := Except.error "deploy boom"
    nestedReposProbe := Except.error "nested boom"
    plansCountProbe := Except.error "plans boom"
    aiDocsCountProbe := Except.error "ai boom"
    claudeDescriptionProbe := Except.error "claude boom" }

/-- A well-shaped metadata blob whose one `recentCommits` item carries an
extra unknown nested key `sha`. -/
def blobWithNestedExtra : Json :=
  Json.obj
    [("lastCommitAuthor", Json.str "a"),
     ("recentCommits", Json.arr
       [Json.obj [("date", Json.str "d"), ("message", Json.str "m"),
                  ("sha", Json.str "deadbeef")]]),
     ("commitCount8m", Json.num 3),
     ("contributors", Json.arr [Json.str "a"]),
     ("techStack", Json.arr [Json.str "go"]),
     ("inferredType", Json.str "go-app")]

/-- A well-shaped metadata blob with exactly-shaped nested values. -/
def cleanBlobFields : List (String × Json) :=
  [("lastCommitAuthor", Json.str "a"),
   ("recentCommits", Json.arr
     [Json.obj [("date", Json.str "d"), ("message", Json.str "m")]]),
   ("commitCount8m", Json.num 3),
   ("contributors", Json.arr [Json.str "a"]),
   ("techStack", Json.arr [Json.str "go"]),
   ("inferredType", Json.str "go-app")]

/-- Unknown top-level extension fields. -/
def extraBlobFields : List (String × Json) :=
  [("futureField", Json.num 42), ("vibe", Json.str "good")]

/-- The JSON object `persistProjects` stores as a scanned project's metadata
(scanner.ts line 98 persists `project.metadata`, the camelCase
`ProjectMetadata` of schema.ts, which the views read back as
`metadata?.techStack`): the tag list is stored under `techStack`; no
snake_case key (`tech_stack`, `inferred_type`, `commit_count_8m`) is ever
written. -/
def persistedMetadata (m : ScannedMetadata) : MetadataJson :=
  { currentState := some m.currentState
    deploymentStatus := m.deploymentStatus
    techStack := some m.techStack
    tech_stack := none
    inferred_type := none
    commit_count_8m := none }

/-- An in-process metadata record tagged exactly `["go"]`. -/
def goScanMeta : ScannedMetadata :=
  { lastCommitAuthor := "a", recentCommits := [], commitCount8m := 0,
    contributors := [], gitRemote := none, referenceFiles := none,
    description := "go project", currentState := "unknown",
    techStack := ["go"], inferredType := "go-app", deploymentStatus := none,
    nestedRepos := none, plansCount := 0, aiDocsCount := 0,
    claudeDescription := none, errors := none }

/-- The row the scan pipeline persists for `goScanMeta`. -/
def pGoPersisted : ProjectRow :=
  { baseRow with path := "/repos/gopersist", name := "gopersist",
                 metadata := some (persistedMetadata goScanMeta) }

/-- What zod returns for `blobWithNestedExtra`: the nested `sha` key is gone. -/
def blobNestedStripped : Json :=
  Json.obj
    [("lastCommitAuthor", Json.str "a"),
     ("recentCommits", Json.arr
       [Json.obj [("date", Json.str "d"), ("message", Json.str "m")]]),
     ("commitCount8m", Json.num 3),
     ("contributors", Json.arr [Json.str "a"]),
     ("techStack", Json.arr [Json.str "go"]),
     ("inferredType", Json.str "go-app")]

/-- A stored row for the upsert witness. -/
def row0 : ProjectRow :=
  { id := 7, path := "/repos/p0", name := "p0", lastCommitDate := 3,
    lastCommitMessage := some "old", metadata := none, isFork := false,
    pinned := true, lastViewedAt := some 11, createdAt := 2, updatedAt := 3 }

/-- Re-scanned values for the same path. -/
def v0 : UpsertValues :=
  { path := "/repos/p0", name := "p0renamed", lastCommitDate := 50,
    lastCommitMessage := some "new", metadata := none, isFork := true }

/-! ## Shared helper lemmas -/

theorem condHolds_some_true : condHolds (some true) = true := rfl

theorem sqlOr_left_true (y : Option Bool) : sqlOr (some true) y = some true := by
  rcases y with _ | b
  · rfl
  · cases b <;> rfl

theorem sqlOr_right_true (x : Option Bool) : sqlOr x (some true) = some true := by
  rcases x with _ | b
  · rfl
  · cases b <;> rfl

theorem sqlAnd_eq_true {x y : Option Bool} (h : sqlAnd x y = some true) :
    x = some true ∧ y = some true := by
  rcases x with _ | b <;> rcases y with _ | c <;>
    first
      | (cases b <;> cases c <;> simp_all [sqlAnd])
      | (try cases b) <;> (try cases c) <;> simp_all [sqlAnd]

theorem wbHere_isPrefix {pat : List Char} {prev : Option Char} {s : List Char}
    (h : wbHere pat prev s = true) : List.isPrefixOf pat s = true := by
  unfold wbHere at h
  simp only [Bool.and_eq_true] at h
  exact h.1.2

theorem occursIn_of_isPrefixOf {pat s : List Char}
    (h : List.isPrefixOf pat s = true) : occursIn pat s = true := by
  cases s with
  | nil => simpa [occursIn] using h
  | cons c rest => simp [occursIn, h]

theorem occursIn_cons {pat rest : List Char} {c : Char}
    (h : occursIn pat rest = true) : occursIn pat (c :: rest) = true := by
  simp [occursIn, h]

theorem wbScan_occurs {pats : List (List Char)} :
    ∀ (s : List Char) (prev : Option Char), wbScan pats prev s = true →
      ∃ p ∈ pats, occursIn p s = true := by
  intro s
  induction s with
  | nil =>
    intro prev h
    simp only [wbScan, List.any_eq_true] at h
    obtain ⟨p, hp, hw⟩ := h
    exact ⟨p, hp, occursIn_of_isPrefixOf (wbHere_isPrefix hw)⟩
  | cons c rest ih =>
    intro prev h
    simp only [wbScan, Bool.or_eq_true, List.any_eq_true] at h
    rcases h with ⟨p, hp, hw⟩ | h
    · exact ⟨p, hp, occursIn_of_isPrefixOf (wbHere_isPrefix hw)⟩
    · obtain ⟨p, hp, ho⟩ := ih (some c) h
      exact ⟨p, hp, occursIn_cons ho⟩

theorem sqlLikeInfix_eq_true {m pat : String} {low : List Char}
    (e : (lowerStr pat).data = low)
    (h : occursIn low (lowerStr m).data = true) :
    sqlLikeInfix m pat = true := by
  unfold sqlLikeInfix
  rw [e]
  exact h

theorem wipLikeExpr_of_msg {p : ProjectRow} {m : String}
    (hm : p.lastCommitMessage = some m)
    (h : sqlLikeInfix m "WIP" = true ∨ sqlLikeInfix m "TODO" = true ∨
         sqlLikeInfix m "FIXME" = true ∨ sqlLikeInfix m "in progress" = true) :
    wipLikeExpr p = some true := by
  unfold wipLikeExpr likeExpr
  rw [hm]
  simp only [Option.map_some']
  rcases h with h | h | h | h <;> rw [h] <;>
    simp [sqlOr_left_true, sqlOr_right_true]

theorem wipLikeExpr_of_cs {p : ProjectRow} {cs : String}
    (hcs : jsonCurrentState p = some cs)
    (h : sqlLikeInfix cs "work in progress" = true) :
    wipLikeExpr p = some true := by
  unfold wipLikeExpr likeExpr
  rw [hcs]
  simp only [Option.map_some']
  rw [h]
  simp [sqlOr_right_true]

/-- The WIP trigger of `computeStatus` must be `true` when it returns `wip`,
and `false` when it does not. -/
theorem computeStatus_wip_trigger {now : Int} {p : ProjectRow}
    (h : computeStatus now p = Status.wip) :
    (wipPatternTest (lowerStr (p.lastCommitMessage.getD "")) ||
     currentStateHasWip p.metadata) = true := by
  cases hw : wipPatternTest (lowerStr (p.lastCommitMessage.getD "")) ||
      currentStateHasWip p.metadata with
  | true => rfl
  | false =>
    exfalso
    simp only [computeStatus, hw] at h
    simp at h
    split_ifs at h

theorem computeStatus_deployed_trigger {now : Int} {p : ProjectRow}
    (h : computeStatus now p = Status.deployed) :
    deploymentStatusLikely p.metadata = true := by
  cases hw : wipPatternTest (lowerStr (p.lastCommitMessage.getD "")) ||
      currentStateHasWip p.metadata with
  | true =>
    exfalso
    simp only [computeStatus, hw] at h
    simp at h
  | false =>
    cases hd : deploymentStatusLikely p.metadata with
    | true => rfl
    | false =>
      exfalso
      simp only [computeStatus, hw, hd] at h
      simp at h
      split_ifs at h

/-! ## C2 — `computeStatus` evaluates first-match-wins -/

/-- C2: `computeStatus` is first-match-wins: it returns `wip` exactly when
the last-commit message matches one of wip/todo/fixme/in progress on word
boundaries case-insensitively or the current-state narrative contains
"work in progress"; otherwise `deployed` exactly when the deployment-status
narrative contains "likely deployed"; otherwise `active` for a commit less
than 7 days old, `recent` for 7–30 days, `paused` beyond.  In particular a
record 3 days old with message "WIP: refactor" is `wip`, not `active`. -/
theorem computeStatus_first_match_wins :
    (∀ (now : Int) (p : ProjectRow),
      (computeStatus now p = Status.wip ↔
        (wipPatternTest (lowerStr (p.lastCommitMessage.getD "")) = true ∨
         currentStateHasWip p.metadata = true)) ∧
      (computeStatus now p = Status.deployed ↔
        (computeStatus now p ≠ Status.wip ∧
         deploymentStatusLikely p.metadata = true)) ∧
      (computeStatus now p = Status.active ↔
        (computeStatus now p ≠ Status.wip ∧
         computeStatus now p ≠ Status.deployed ∧
         now - p.lastCommitDate < 7 * msPerDay)) ∧
      (computeStatus now p = Status.recent ↔
        (computeStatus now p ≠ Status.wip ∧
         computeStatus now p ≠ Status.deployed ∧
         7 * msPerDay ≤ now - p.lastCommitDate ∧
         now - p.lastCommitDate < 30 * msPerDay)) ∧
      (computeStatus now p = Status.paused ↔
        (computeStatus now p ≠ Status.wip ∧
         computeStatus now p ≠ Status.deployed ∧
         30 * msPerDay ≤ now - p.lastCommitDate))) ∧
    computeStatus (3 * msPerDay) pWipRefactor = Status.wip ∧
    computeStatus (3 * msPerDay) pWipRefactor ≠ Status.active := by
  refine ⟨?_, by decide, by decide⟩
  intro now p
  by_cases hw : (wipPatternTest (lowerStr (p.lastCommitMessage.getD "")) ||
      currentStateHasWip p.metadata) = true
  · simp only [computeStatus, hw, if_true]
    simp [Bool.or_eq_true] at hw
    simp [hw]
  · simp only [computeStatus, hw, if_false]
    simp only [Bool.or_eq_true] at hw
    push_neg at hw
    by_cases hd : deploymentStatusLikely p.metadata = true
    · simp [hd, hw]
    · simp only [Bool.not_eq_true] at hd
      have hm : msPerDay = 86400000 := rfl
      by_cases h7 : now - p.lastCommitDate < 7 * msPerDay
      · simp [hd, hw, h7]
        omega
      · by_cases h30 : now - p.lastCommitDate < 30 * msPerDay
        · simp [hd, hw, h7, h30]
          omega
        · simp [hd, hw, h7, h30]
          omega

/-! ## C1 — dual realization of the status classifier -/

/-- C1 counterexample: the store-side `wip` predicate uses substring `LIKE`
matching, so the row whose message is "wipe the slate" satisfies it, while
`computeStatus` (word-boundary regex) classifies the same row `active` at
the same `now`; the claimed equivalence fails for status `wip` at this row. -/
theorem statusCondition_computeStatus_disagree :
    statusSelects "wip" 0 pWipe = true ∧
    computeStatus 0 pWipe = Status.active ∧
    ¬(statusSelects "wip" 0 pWipe = true ↔
      computeStatus 0 pWipe = Status.wip) := by
  decide

/-- C1 amended: the two realizations do not coincide; what holds is the
containment on the marker statuses and the store-side alias identity —
whenever `computeStatus` yields `wip` the store `wip` predicate selects the
row, whenever it yields `deployed` the store `deployed` predicate selects
the row, and the `active_this_week` predicate is literally the `active`
predicate.  (The converses fail: substring matching, the deployed
predicate's missing WIP-priority check, and day-granularity recency make
the store predicates strictly coarser.) -/
theorem statusRealizations_partial_agreement :
    (∀ (now : Int) (p : ProjectRow), computeStatus now p = Status.wip →
      statusSelects "wip" now p = true) ∧
    (∀ (now : Int) (p : ProjectRow), computeStatus now p = Status.deployed →
      statusSelects "deployed" now p = true) ∧
    (∀ (now : Int) (p : ProjectRow),
      statusSelects "active_this_week" now p = statusSelects "active" now p) := by
  refine ⟨?_, ?_, fun now p => rfl⟩
  · intro now p h
    have hsel : statusSelects "wip" now p = condHolds (wipLikeExpr p) := rfl
    rw [hsel]
    have hcond := computeStatus_wip_trigger h
    rcases (by simpa using hcond :
      wipPatternTest (lowerStr (p.lastCommitMessage.getD "")) = true ∨
      currentStateHasWip p.metadata = true) with hpat | hcs
    · cases hmsg : p.lastCommitMessage with
      | none =>
        rw [hmsg] at hpat
        simp only [Option.getD_none] at hpat
        exact absurd hpat (by decide)
      | some m =>
        rw [hmsg] at hpat
        simp only [Option.getD_some] at hpat
        unfold wipPatternTest at hpat
        obtain ⟨kw, hkw, hocc⟩ := wbScan_occurs _ _ hpat
        simp only [wipKeywords, List.mem_cons, List.mem_singleton,
          List.not_mem_nil, or_false] at hkw
        rcases hkw with hkw | hkw | hkw | hkw <;> subst hkw
        · rw [wipLikeExpr_of_msg hmsg
            (Or.inl (sqlLikeInfix_eq_true (by decide) hocc))]
          rfl
        · rw [wipLikeExpr_of_msg hmsg
            (Or.inr (Or.inl (sqlLikeInfix_eq_true (by decide) hocc)))]
          rfl
        · rw [wipLikeExpr_of_msg hmsg
            (Or.inr (Or.inr (Or.inl (sqlLikeInfix_eq_true (by decide) hocc))))]
          rfl
        · rw [wipLikeExpr_of_msg hmsg
            (Or.inr (Or.inr (Or.inr (sqlLikeInfix_eq_true (by decide) hocc))))]
          rfl
    · cases hmd : p.metadata with
      | none => rw [hmd] at hcs; simp [currentStateHasWip] at hcs
      | some md =>
        cases hcsf : md.currentState with
        | none =>
          rw [hmd] at hcs
          simp only [currentStateHasWip, hcsf] at hcs
          exact absurd hcs (by decide)
        | some cs =>
          rw [hmd] at hcs
          simp only [currentStateHasWip, hcsf] at hcs
          have hjson : jsonCurrentState p = some cs := by
            simp [jsonCurrentState, hmd, hcsf]
          rw [wipLikeExpr_of_cs hjson
            (sqlLikeInfix_eq_true (by decide) hcs)]
          rfl
  · intro now p h
    have hsel : statusSelects "deployed" now p =
        condHolds (likeExpr (jsonDeploymentStatus p) "likely deployed") := rfl
    rw [hsel]
    have hd := computeStatus_deployed_trigger h
    cases hmd : p.metadata with
    | none => rw [hmd] at hd; simp [deploymentStatusLikely] at hd
    | some md =>
      cases hds : md.deploymentStatus with
      | none =>
        rw [hmd] at hd
        simp only [deploymentStatusLikely, hds] at hd
        exact absurd hd (by decide)
      | some ds =>
        rw [hmd] at hd
        simp only [deploymentStatusLikely, hds] at hd
        have hjson : jsonDeploymentStatus p = some ds := by
          simp [jsonDeploymentStatus, hmd, hds]
        unfold likeExpr
        rw [hjson]
        simp only [Option.map_some']
        rw [sqlLikeInfix_eq_true (by decide) hd]
        rfl

/-- Witness for the amended C1 statement at a concrete record: the scenario
row is classified `wip` in-process, and the store `wip` predicate selects it. -/
theorem statusRealizations_partial_agreement_witness :
    computeStatus 0 pWipRefactor = Status.wip ∧
    statusSelects "wip" 0 pWipRefactor = true :=
  ⟨by decide, statusRealizations_partial_agreement.1 0 pWipRefactor (by decide)⟩

/-! ## C3 — tech-stack filtering is exact membership -/

theorem condHolds_some (x : Bool) : condHolds (some x) = x := by
  cases x <;> rfl

/-- C3 at its failing input: `techStackCondition` does evaluate exact
membership of the filter value in the array under the key it reads — never
substring containment of the serialized list, so a row carrying
`tech_stack = ["go"]` matches `"go"` and not `"django"` — but the key it
reads is the snake_case `$.tech_stack`, while the scan pipeline persists the
tag list under the camelCase `techStack` and never writes `tech_stack`.  On
every scanner-persisted record the extraction is therefore NULL,
`json_each` yields no rows, and the filter matches nothing: a record
persisted with tag list `["go"]` does not even match the filter `"go"`,
refuting the claimed equivalence with stored-tag membership (its
`["go"]`-vs-`"django"` example holds only vacuously). -/
theorem techStackCondition_reads_unwritten_key :
    (∀ (t : String) (p : ProjectRow),
      techStackCondition t p = true ↔
        (∃ tags, jsonTechStack p = some tags ∧ t ∈ tags)) ∧
    (∀ (m : ScannedMetadata) (t : String) (p : ProjectRow),
      jsonTechStack { p with metadata := some (persistedMetadata m) } = none ∧
      techStackCondition t { p with metadata := some (persistedMetadata m) } =
        false) ∧
    goScanMeta.techStack = ["go"] ∧
    techStackCondition "go" pGoPersisted = false ∧
    techStackCondition "django" pGoPersisted = false ∧
    techStackCondition "go" pGoTagged = true ∧
    techStackCondition "django" pGoTagged = false ∧
    techStackCondition "go" pDjangoTagged = false ∧
    occursIn "go".data (serializeTags ["django"]).data = true := by
  refine ⟨?_, fun m t p => ⟨rfl, rfl⟩, by decide, by decide, by decide,
    by decide, by decide, by decide, by decide⟩
  intro t p
  unfold techStackCondition
  cases h : jsonTechStack p with
  | none => simp
  | some tags =>
    simp only [List.any_eq_true, beq_iff_eq, Option.some.injEq]
    constructor
    · rintro ⟨v, hv, rfl⟩
      exact ⟨tags, rfl, hv⟩
    · rintro ⟨tags2, rfl, ht⟩
      exact ⟨t, ht, rfl⟩

/-! ## C4 — default sort directions in the listing query -/

/-- C4 evaluated at the failing input: when a sort key comes without a
direction, `buildOrderBy` falls into its `desc` branch for every sort key —
including `name`, which the claim (and the repo's read-path plan document)
says should default to ascending.  Only an explicit `direction=asc` yields
ascending order. -/
theorem buildOrderBy_name_defaults_desc :
    buildOrderBy (some "name") none =
      OrderBySql.directed (OrderBySql.expr "projects.name") "desc" ∧
    buildOrderBy (some "last_commit_date") none =
      OrderBySql.directed (OrderBySql.expr "projects.last_commit_date") "desc" ∧
    buildOrderBy (some "commit_count") none =
      OrderBySql.directed (OrderBySql.expr
        "CAST(COALESCE(json_extract(projects.metadata, $.commit_count_8m), 0) AS INTEGER)")
        "desc" ∧
    buildOrderBy (some "name") (some "asc") =
      OrderBySql.directed (OrderBySql.expr "projects.name") "asc" :=
  ⟨rfl, rfl, rfl, rfl⟩

/-! ## C5 — sidebar aggregates versus the status filters -/

/-- C5 counterexample: a record committed today with message "WIP commit" is
counted by the sidebar active-this-week query (recency only) but is not
selected by the `active_this_week` status filter (which excludes WIP
records), so the two counts differ on the one-row table. -/
theorem sidebar_active_count_mismatch :
    activeThisWeekCount 0 [pWipFresh] = 1 ∧
    statusFilterCount "active_this_week" 0 [pWipFresh] = 0 ∧
    activeThisWeekCount 0 [pWipFresh] ≠
      statusFilterCount "active_this_week" 0 [pWipFresh] := by
  decide

theorem condHolds_iff {x : Option Bool} : condHolds x = true ↔ x = some true := by
  cases x with
  | none => simp [condHolds]
  | some b => cases b <;> simp [condHolds]

theorem sqlCountWhere_mono {c d : ProjectRow → Bool}
    (h : ∀ p, c p = true → d p = true) :
    ∀ table, sqlCountWhere c table ≤ sqlCountWhere d table := by
  intro table
  induction table with
  | nil => simp [sqlCountWhere]
  | cons x xs ih =>
    simp only [sqlCountWhere, List.filter_cons] at *
    cases hc : c x with
    | true =>
      rw [h x hc]
      simpa using ih
    | false =>
      cases hd : d x with
      | true => simpa using Nat.le_succ_of_le ih
      | false => simpa using ih

/-- C5 amended: the `active_this_week` filter is literally the `active`
filter, and the sidebar stalled count does count exactly the records the
`stalled` predicate selects (the 14–60-day band); but the sidebar
active-this-week count uses the recency band alone, without the filter's
WIP/deployed exclusions, so it only bounds the filter's selection from
above and can strictly exceed it. -/
theorem sidebar_counts_amended :
    (∀ (now : Int) (p : ProjectRow),
      statusSelects "active_this_week" now p = statusSelects "active" now p) ∧
    (∀ (now : Int) (table : List ProjectRow),
      stalledCount now table = statusFilterCount "stalled" now table) ∧
    (∀ (now : Int) (table : List ProjectRow),
      statusFilterCount "active_this_week" now table ≤
        activeThisWeekCount now table) := by
  refine ⟨fun now p => rfl, ?_, ?_⟩
  · intro now table
    unfold stalledCount statusFilterCount sqlCountWhere
    have hpt : ∀ p ∈ table, sidebarStalledCond now p =
        (fun q => statusSelects "stalled" now q) p := by
      intro p _
      have h1 : statusSelects "stalled" now p =
          condHolds (some (decide (dayOf now - 60 ≤ dayOf p.lastCommitDate) &&
            decide (dayOf p.lastCommitDate ≤ dayOf now - 14))) := rfl
      simp only [h1, condHolds_some]
      rfl
    rw [List.filter_congr hpt]
  · intro now table
    apply sqlCountWhere_mono
    intro p hp
    have h1 : statusSelects "active_this_week" now p =
        condHolds (sqlAnd
          (sqlAnd (some (decide (dayOf now - 7 ≤ dayOf p.lastCommitDate)))
                  (sqlNot (wipLikeCoalescedExpr p)))
          (sqlNot (coalesceLike (jsonDeploymentStatus p) "likely deployed"))) := rfl
    rw [h1, condHolds_iff] at hp
    obtain ⟨hp1, _⟩ := sqlAnd_eq_true hp
    obtain ⟨hp2, _⟩ := sqlAnd_eq_true hp1
    unfold sidebarActiveCond
    injection hp2

/-! ## C6 — adjacent-record navigation's ordering term -/

/-- C6 evaluated against the failing construction: for every sort key and
direction, `findAdjacentProjects` wraps `buildOrderBy`'s already-directed
fragment in the direction keyword a second time, so the fragment it sends in
`ORDER BY` carries two direction keywords and is not a well-formed SQLite
ordering term (SQLite rejects `expr desc desc` as a syntax error), while the
main listing's fragment carries exactly one.  At the show route's default
input the issued fragment is `projects.last_commit_date desc desc`. -/
theorem findAdjacent_double_direction :
    (∀ (sort direction : String),
      findAdjacentOrderBy sort direction =
        OrderBySql.directed (buildOrderBy (some sort) (some direction))
          (if direction = "asc" then "asc" else "desc") ∧
      dirCount (findAdjacentOrderBy sort direction) = 2 ∧
      validOrderingTerm (findAdjacentOrderBy sort direction) = false ∧
      dirCount (buildOrderBy (some sort) (some direction)) = 1 ∧
      validOrderingTerm (buildOrderBy (some sort) (some direction)) = true) ∧
    findAdjacentOrderBy "last_commit_date" "desc" =
      OrderBySql.directed
        (OrderBySql.directed (OrderBySql.expr "projects.last_commit_date")
          "desc") "desc" := by
  refine ⟨?_, by decide⟩
  intro sort direction
  unfold findAdjacentOrderBy buildOrderBy validOrderingTerm
  split_ifs <;>
    simp [dirCount, drizzleAsc, drizzleDesc]

/-! ## C7 — extraction error contract -/

theorem probeD_error {α : Type} {o : Except String α} {e : String}
    (h : o = Except.error e) (d : α) (pre : String) (errs : List String) :
    probeD o d pre errs = (d, errs ++ [errorMsg pre e]) := by
  rw [h]
  rfl

theorem mem_probeD {α : Type} {x : String} {errs : List String}
    (o : Except String α) (d : α) (pre : String)
    (h : x ∈ errs) : x ∈ (probeD o d pre errs).2 := by
  cases o with
  | ok v => exact h
  | error e => exact List.mem_append_left _ h

theorem getD_if_nil (l : List String) :
    (if l = [] then none else some l).getD [] = l := by
  by_cases h : l = [] <;> simp [h]

/-- C7: `extractProjectData` returns `none` exactly when the repository has
no `.git` marker or the git-history probe yields no commit; under any other
probe failure the probe's error message is appended to the record's error
list, the probe's output falls back to its empty/unknown default, and a
record is still returned. -/
theorem extractProjectData_error_contract :
    (∀ (fs : RepoFs) (rp nm : String) (u : Option String),
      extractProjectData fs rp nm u = none ↔
        (fs.hasGitDir = false ∨ ∀ gd, fs.gitLog ≠ Except.ok (some gd))) ∧
    (∀ (fs : RepoFs) (rp nm : String) (u : Option String) (gd : GitData),
      fs.hasGitDir = true → fs.gitLog = Except.ok (some gd) →
      ∃ r, extractProjectData fs rp nm u = some r ∧
        (∀ e, fs.commitCountProbe = Except.error e →
          r.metadata.commitCount8m = 0 ∧
          errorMsg "Commit count error" e ∈ errorsOf r) ∧
        (∀ e, fs.remoteProbe = Except.error e →
          r.metadata.gitRemote = none ∧
          errorMsg "Remote error" e ∈ errorsOf r) ∧
        (∀ e, fs.referenceFilesProbe = Except.error e →
          r.metadata.referenceFiles = none ∧
          errorMsg "Reference files error" e ∈ errorsOf r) ∧
        (∀ e, fs.descriptionProbe = Except.error e →
          r.metadata.description = nm ∧
          errorMsg "Description error" e ∈ errorsOf r) ∧
        (∀ e, fs.techStackProbe = Except.error e →
          r.metadata.techStack = [] ∧ r.metadata.inferredType = "unknown" ∧
          errorMsg "Tech stack error" e ∈ errorsOf r) ∧
        (∀ e, fs.currentStateProbe = Except.error e →
          r.metadata.currentState = "unknown" ∧
          errorMsg "State error" e ∈ errorsOf r) ∧
        (∀ e, fs.deploymentStatusProbe = Except.error e →
          r.metadata.deploymentStatus = none ∧
          errorMsg "Deployment error" e ∈ errorsOf r) ∧
        (∀ e, fs.nestedReposProbe = Except.error e →
          r.metadata.nestedRepos = none ∧
          errorMsg "Nested repos error" e ∈ errorsOf r) ∧
        (∀ e, fs.plansCountProbe = Except.error e →
          r.metadata.plansCount = 0 ∧
          errorMsg "Plans count error" e ∈ errorsOf r) ∧
        (∀ e, fs.aiDocsCountProbe = Except.error e →
          r.metadata.aiDocsCount = 0 ∧
          errorMsg "AI docs count error" e ∈ errorsOf r) ∧
        (∀ e, fs.claudeDescriptionProbe = Except.error e →
          r.metadata.claudeDescription = none ∧
          errorMsg "Claude description error" e ∈ errorsOf r)) := by
  constructor
  · intro fs rp nm u
    constructor
    · intro h
      by_cases hg : fs.hasGitDir = true
      · right
        intro gd hgd
        simp only [extractProjectData, hg, hgd] at h
        simp at h
      · left
        simpa using hg
    · intro h
      rcases h with h | h
      · simp [extractProjectData, h]
      · unfold extractProjectData
        cases hlog : fs.gitLog with
        | error e => split_ifs <;> simp
        | ok o =>
          cases o with
          | none => split_ifs <;> simp
          | some gd => exact absurd hlog (h gd)
  · intro fs rp nm u gd hg hlog
    simp only [extractProjectData, hg, hlog]
    simp only [Bool.true_eq_false, if_false]
    refine ⟨_, rfl, ?_, ?_, ?_, ?_, ?_, ?_, ?_, ?_, ?_, ?_, ?_⟩ <;>
        intro e he <;>
        simp only [extractMetadata, errorsOf, getD_if_nil]
    · -- commit count
      refine ⟨by rw [probeD_error he], ?_⟩
      iterate 10 apply mem_probeD
      rw [probeD_error he]
      simp
    · -- remote
      refine ⟨by rw [probeD_error he], ?_⟩
      iterate 9 apply mem_probeD
      rw [probeD_error he]
      simp
    · -- reference files
      refine ⟨by rw [probeD_error he]; simp, ?_⟩
      iterate 8 apply mem_probeD
      rw [probeD_error he]
      simp
    · -- description
      refine ⟨by rw [probeD_error he], ?_⟩
      iterate 7 apply mem_probeD
      rw [probeD_error he]
      simp
    · -- tech stack
      refine ⟨by rw [probeD_error he], by rw [probeD_error he]; rfl, ?_⟩
      iterate 6 apply mem_probeD
      rw [probeD_error he]
      simp
    · -- current state
      refine ⟨by rw [probeD_error he], ?_⟩
      iterate 5 apply mem_probeD
      rw [probeD_error he]
      simp
    · -- deployment status
      have he2 : Except.map some fs.deploymentStatusProbe =
          Except.error e := by rw [he]; rfl
      refine ⟨by rw [probeD_error he2], ?_⟩
      iterate 4 apply mem_probeD
      rw [probeD_error he2]
      simp
    · -- nested repos
      refine ⟨by rw [probeD_error he]; simp, ?_⟩
      iterate 3 apply mem_probeD
      rw [probeD_error he]
      simp
    · -- plans count
      refine ⟨by rw [probeD_error he], ?_⟩
      iterate 2 apply mem_probeD
      rw [probeD_error he]
      simp
    · -- ai docs count
      refine ⟨by rw [probeD_error he], ?_⟩
      apply mem_probeD
      rw [probeD_error he]
      simp
    · -- claude description
      refine ⟨by rw [probeD_error he], ?_⟩
      rw [probeD_error he]
      simp

/-- Witness for C7 at a concrete repository state in which every
fault-tolerant probe fails: extraction still returns a record. -/
theorem extractProjectData_error_contract_witness :
    extractProjectData allFailFs "/repos/x" "x" none ≠ none := by
  obtain ⟨r, hr, _⟩ :=
    extractProjectData_error_contract.2 allFailFs "/repos/x" "x" none gdInit
      rfl rfl
  simp [hr]

/-! ## C9 — fork classification -/

/-- C9 counterexample: the remote `git@evil.com:github.com/alice/x` has host
`evil.com`, not the recognized host, yet `detectIsFork` classifies it as a
fork for identity `bob`: `GITHUB_REMOTE_RE` searches for `github.com`
anywhere in the URL, not in host position, so the claimed "a
non-recognized-host remote is never a fork regardless of identity" fails. -/
theorem detectIsFork_nonhost_counterexample :
    remoteHost evilRemote = some "evil.com" ∧
    remoteHost evilRemote ≠ some "github.com" ∧
    detectIsFork (some evilRemote) (some "bob") = true := by
  decide

/-- C9 amended: `detectIsFork` returns false whenever the remote URL or the
identity is absent or empty, or the remote contains no
`github.com[:/]owner/` segment (the code's recognition of a GitHub remote is
this substring search, not a host comparison); otherwise it returns true iff
the owner captured from the first such segment differs case-insensitively
from the identity.  The claim's concrete examples hold as stated. -/
theorem detectIsFork_characterization :
    (∀ u, detectIsFork none u = false) ∧
    (∀ r, detectIsFork r none = false) ∧
    (∀ u, detectIsFork (some "") u = false) ∧
    (∀ r, detectIsFork (some r) (some "") = false) ∧
    (∀ r u, githubOwnerOf r = none → detectIsFork (some r) (some u) = false) ∧
    (∀ r u o, githubOwnerOf r = some o → r ≠ "" → u ≠ "" →
      (detectIsFork (some r) (some u) = true ↔ lowerStr o ≠ lowerStr u)) ∧
    detectIsFork (some "git@github.com:alice/foo.git") (some "Alice") = false ∧
    detectIsFork (some "git@github.com:alice/foo.git") (some "bob") = true ∧
    (∀ u, detectIsFork (some "git@gitlab.com:alice/foo.git") u = false) := by
  refine ⟨fun u => ?_, fun r => ?_, fun u => ?_, fun r => ?_, ?_, ?_,
    by decide, by decide, ?_⟩
  · cases u <;> rfl
  · cases r <;> rfl
  · cases u with
    | none => rfl
    | some s => simp [detectIsFork]
  · simp [detectIsFork]
  · intro r u h
    show (if r = "" ∨ u = "" then false
      else match githubOwnerOf r with
        | none => false
        | some owner => lowerStr owner != lowerStr u) = false
    split_ifs with hre
    · rfl
    · rw [h]
  · intro r u o h hr hu
    show (if r = "" ∨ u = "" then false
      else match githubOwnerOf r with
        | none => false
        | some owner => lowerStr owner != lowerStr u) = true ↔
      lowerStr o ≠ lowerStr u
    rw [if_neg (by tauto), h]
    simp [bne_iff_ne]
  · intro u
    cases u with
    | none => rfl
    | some s =>
      show (if "git@gitlab.com:alice/foo.git" = "" ∨ s = "" then false
        else match githubOwnerOf "git@gitlab.com:alice/foo.git" with
          | none => false
          | some owner => lowerStr owner != lowerStr s) = false
      split_ifs with hre
      · rfl
      · rw [show githubOwnerOf "git@gitlab.com:alice/foo.git" = none from
          by decide]

/-- Witness for the amended C9 characterization: discharging its hypotheses
at the claim's own ssh example and identity `bob` yields the fork verdict. -/
theorem detectIsFork_characterization_witness :
    detectIsFork (some "git@github.com:alice/foo.git") (some "bob") = true :=
  (detectIsFork_characterization.2.2.2.2.2.1 "git@github.com:alice/foo.git"
    "bob" "alice" (by decide) (by decide) (by decide)).mpr (by decide)

/-! ## C8 — metadata validation and round-trip -/

theorem jsonLookup_append {extra : List (String × Json)} {k : String}
    (h : ∀ kv ∈ extra, kv.1 ≠ k) (fields : List (String × Json)) :
    jsonLookup (fields ++ extra) k = jsonLookup fields k := by
  have hx : List.find? (fun kv => kv.1 == k) extra = none := by
    rw [List.find?_eq_none]
    intro kv hkv
    simpa using h kv hkv
  unfold jsonLookup
  rw [List.find?_append, hx]
  simp

theorem requiredOk_append {extra : List (String × Json)} {k : String}
    (h : ∀ kv ∈ extra, kv.1 ≠ k) (fields : List (String × Json))
    (chk : Json → Bool) :
    requiredOk (fields ++ extra) k chk = requiredOk fields k chk := by
  unfold requiredOk
  rw [jsonLookup_append h]

theorem optionalOk_append {extra : List (String × Json)} {k : String}
    (h : ∀ kv ∈ extra, kv.1 ≠ k) (fields : List (String × Json))
    (chk : Json → Bool) :
    optionalOk (fields ++ extra) k chk = optionalOk fields k chk := by
  unfold optionalOk
  rw [jsonLookup_append h]

theorem metadataShapeOk_append {fields extra : List (String × Json)}
    (h : ∀ kv ∈ extra, kv.1 ∉ metadataKnownKeys) :
    metadataShapeOk (fields ++ extra) = metadataShapeOk fields := by
  have hne : ∀ k : String, k ∈ metadataKnownKeys →
      ∀ kv ∈ extra, kv.1 ≠ k := by
    intro k hk kv hkv he
    exact h kv hkv (he ▸ hk)
  unfold metadataShapeOk
  rw [requiredOk_append (hne "lastCommitAuthor" (by decide)),
     requiredOk_append (hne "recentCommits" (by decide)),
     requiredOk_append (hne "commitCount8m" (by decide)),
     requiredOk_append (hne "contributors" (by decide)),
     optionalOk_append (hne "gitRemote" (by decide)),
     optionalOk_append (hne "referenceFiles" (by decide)),
     optionalOk_append (hne "description" (by decide)),
     optionalOk_append (hne "currentState" (by decide)),
     requiredOk_append (hne "techStack" (by decide)),
     requiredOk_append (hne "inferredType" (by decide)),
     optionalOk_append (hne "deploymentStatus" (by decide)),
     optionalOk_append (hne "nestedRepos" (by decide)),
     optionalOk_append (hne "plansCount" (by decide)),
     optionalOk_append (hne "aiDocsCount" (by decide)),
     optionalOk_append (hne "claudeDescription" (by decide)),
     optionalOk_append (hne "errors" (by decide))]

theorem rebuildKnown_other {k : String} (v : Json)
    (h1 : k ≠ "recentCommits") (h2 : k ≠ "referenceFiles") :
    rebuildKnown k v = v := by
  unfold rebuildKnown
  rw [if_neg h1, if_neg h2]

/-- C8 counterexample: a blob whose core fields are valid but whose one
`recentCommits` item carries the unknown nested key `sha` passes validation,
yet the parse output's item has lost `sha`: the round trip through the
metadata schema does not preserve every field.  (No extra top-level fields
are even needed; "arbitrary unknown extra fields" includes none.) -/
theorem metadata_roundtrip_nested_loss :
    parseProjectMetadata blobWithNestedExtra = some blobNestedStripped ∧
    (∃ fields, blobWithNestedExtra = Json.obj fields ∧
      jsonLookup fields "recentCommits" = some (Json.arr
        [Json.obj [("date", Json.str "d"), ("message", Json.str "m"),
                   ("sha", Json.str "deadbeef")]])) ∧
    (∃ fields, blobNestedStripped = Json.obj fields ∧
      jsonLookup fields "recentCommits" = some (Json.arr
        [Json.obj [("date", Json.str "d"), ("message", Json.str "m")]])) :=
  ⟨rfl, ⟨_, rfl, rfl⟩, ⟨_, rfl, rfl⟩⟩

/-- C8 amended: adding unknown top-level fields to a blob with valid core
fields never causes validation failure, and parsing preserves every
top-level field other than the two nested-object fields
(`recentCommits`, `referenceFiles`) exactly; when the nested values are
already in the schema's declared shape — so the rebuild fixes them — the
round trip through the schema is the identity, unknown top-level fields
included.  Unknown keys nested inside those two fields are dropped. -/
theorem metadata_passthrough_amended :
    ∀ (fields extra : List (String × Json)),
      metadataShapeOk fields = true →
      (∀ kv ∈ extra, kv.1 ∉ metadataKnownKeys) →
      metadataShapeOk (fields ++ extra) = true ∧
      (∃ out, parseProjectMetadata (Json.obj (fields ++ extra)) =
          some (Json.obj out) ∧
        (∀ kv ∈ fields ++ extra,
          kv.1 ≠ "recentCommits" → kv.1 ≠ "referenceFiles" → kv ∈ out)) ∧
      ((∀ kv ∈ fields ++ extra, rebuildKnown kv.1 kv.2 = kv.2) →
        parseProjectMetadata (Json.obj (fields ++ extra)) =
          some (Json.obj (fields ++ extra))) := by
  intro fields extra hok hextra
  have hshape : metadataShapeOk (fields ++ extra) = true := by
    rw [metadataShapeOk_append hextra]
    exact hok
  refine ⟨hshape, ?_, ?_⟩
  · have hparse : parseProjectMetadata (Json.obj (fields ++ extra)) =
        some (Json.obj ((fields ++ extra).map (fun kv =>
          if metadataKnownKeys.contains kv.1 then
            (kv.1, rebuildKnown kv.1 kv.2)
          else kv))) := by
      simp only [parseProjectMetadata, hshape, if_true]
    refine ⟨_, hparse, ?_⟩
    intro kv hkv h1 h2
    have hfix : (if metadataKnownKeys.contains kv.1 then
        (kv.1, rebuildKnown kv.1 kv.2) else kv) = kv := by
      split_ifs with hk
      · rw [rebuildKnown_other _ h1 h2]
      · rfl
    have hmem := List.mem_map_of_mem (fun kv : String × Json =>
      if metadataKnownKeys.contains kv.1 then (kv.1, rebuildKnown kv.1 kv.2)
      else kv) hkv
    simp only [] at hmem
    rwa [hfix] at hmem
  · intro hfixall
    simp only [parseProjectMetadata, hshape, if_true]
    have hmap : ∀ (l : List (String × Json)),
        (∀ kv ∈ l, rebuildKnown kv.1 kv.2 = kv.2) →
        l.map (fun kv => if metadataKnownKeys.contains kv.1 then
          (kv.1, rebuildKnown kv.1 kv.2) else kv) = l := by
      intro l
      induction l with
      | nil => intro _; rfl
      | cons x xs ih =>
        intro hl
        simp only [List.map_cons]
        rw [ih (fun kv hkv => hl kv (List.mem_cons_of_mem _ hkv))]
        have hx := hl x (List.mem_cons_self _ _)
        split_ifs with hk
        · rw [hx]
        · rfl
    rw [hmap _ hfixall]

/-- Witness for the amended C8 statement: a concrete valid blob with two
unknown top-level extension fields validates and round-trips identically. -/
theorem metadata_passthrough_amended_witness :
    metadataShapeOk (cleanBlobFields ++ extraBlobFields) = true ∧
    parseProjectMetadata (Json.obj (cleanBlobFields ++ extraBlobFields)) =
      some (Json.obj (cleanBlobFields ++ extraBlobFields)) := by
  have h := metadata_passthrough_amended cleanBlobFields extraBlobFields
    (by decide) (by intro kv hkv; fin_cases hkv <;> decide)
  exact ⟨h.1, h.2.2 (by intro kv hkv; fin_cases hkv <;> rfl)⟩

/-! ## C10 — upsert frame conditions -/

/-- C10: upserting a scanned project whose path already exists creates no
row: the row count and id multiset are unchanged; on every row the id, path,
pinned flag, last-viewed timestamp and created timestamp are untouched;
rows with a different path are untouched entirely; the conflicting row takes
exactly the new name, last-commit date, last-commit message, metadata, fork
flag and the fresh updated timestamp — and if the scanned values equal the
stored ones the row changes only in its updated timestamp. -/
theorem upsert_existing_path_frame :
    ∀ (table : List ProjectRow) (v : UpsertValues) (freshId now : Int),
      table.any (fun r => r.path == v.path) = true →
      (upsertProject table v freshId now).length = table.length ∧
      (upsertProject table v freshId now).map ProjectRow.id =
        table.map ProjectRow.id ∧
      List.Forall₂ (fun (r r2 : ProjectRow) =>
          r2.id = r.id ∧ r2.path = r.path ∧ r2.pinned = r.pinned ∧
          r2.lastViewedAt = r.lastViewedAt ∧ r2.createdAt = r.createdAt ∧
          (r.path ≠ v.path → r2 = r) ∧
          (r.path = v.path →
            r2.name = v.name ∧ r2.lastCommitDate = v.lastCommitDate ∧
            r2.lastCommitMessage = v.lastCommitMessage ∧
            r2.metadata = v.metadata ∧ r2.isFork = v.isFork ∧
            r2.updatedAt = now ∧
            (r.name = v.name → r.lastCommitDate = v.lastCommitDate →
             r.lastCommitMessage = v.lastCommitMessage →
             r.metadata = v.metadata → r.isFork = v.isFork →
             r2 = { r with updatedAt := now })))
        table (upsertProject table v freshId now) := by
  intro table v freshId now h
  unfold upsertProject
  rw [if_pos h]
  refine ⟨by simp, ?_, ?_⟩
  · clear h
    induction table with
    | nil => simp
    | cons x xs ih =>
      simp only [List.map_cons, List.cons.injEq]
      refine ⟨?_, ih⟩
      split_ifs <;> rfl
  · rw [List.forall₂_map_right_iff]
    rw [List.forall₂_same]
    intro r _
    by_cases hp : r.path = v.path
    · have hb : (r.path == v.path) = true := by simpa using hp
      rw [if_pos hb]
      refine ⟨rfl, rfl, rfl, rfl, rfl, fun hc => absurd hp hc,
        fun _ => ⟨rfl, rfl, rfl, rfl, rfl, rfl, ?_⟩⟩
      intro h1 h2 h3 h4 h5
      cases r
      simp_all
    · rw [if_neg (by simpa using hp)]
      exact ⟨rfl, rfl, rfl, rfl, rfl, fun _ => rfl, fun hc => absurd hc hp⟩

/-- Witness for C10 at a concrete one-row store and a re-scan of the same
path: the store keeps one row. -/
theorem upsert_existing_path_frame_witness :
    (upsertProject [row0] v0 5 99).length = 1 :=
  (upsert_existing_path_frame [row0] v0 5 99 (by decide)).1

end ProjectDashboard
